import Mathlib

/-
  Verification of the Ergometer utility module (util.js and the extended
  copy in part_000; the two files' `assert` and `switchOnKey` are textually
  identical, their `range` generators differ and are both embedded).

  Embedding conventions:
  * JS values reaching `assert` are modelled by the inductive `JsValue`,
    with JS ToBoolean coercion as `truthy` (undefined, null, NaN, false,
    0 and the empty string are falsy, everything else truthy).
  * Code that can hit `throw Error('Assertion failed')` returns
    `Except JsError _`; the single error kind is `JsError.assertionFailed`.
  * JS numbers are modelled as `Int` on the integer inputs the claims range
    over; sequences are `List`s; a sequence element is read with `getD`
    (every access made by the code is in bounds, so the default is inert).
  * An object inspected by `switchOnKey` is modelled by the list of its own
    property names (`JsObj`); a handler mapping is an association list in
    the object's property-enumeration order, its values the (always truthy)
    handler functions; an absent/falsy `defaultHandler` is `none`.
  * The `range` generators can loop forever when the step direction opposes
    the bounds, so their loops take explicit fuel; `none` marks a run that
    exceeded the fuel.  The degenerate-range assertion fires before the
    loop, hence independently of fuel.
-/

namespace Ergometer

/-- The one error kind of the module: `throw Error('Assertion failed')`. -/
inductive JsError where
  | assertionFailed
deriving DecidableEq

/-- JavaScript values, as far as the `assert` helper can observe them:
only truthiness and identity matter.  Numbers are split into `num` (the
integers) and `nan`; `obj` stands for any object or function (always
truthy). -/
inductive JsValue where
  | undefined
  | null
  | nan
  | bool (b : Bool)
  | num (n : Int)
  | str (s : String)
  | obj
deriving DecidableEq

/-- JS ToBoolean: the coercion applied by `if (!value)`. -/
def truthy : JsValue → Bool
  | .undefined => false
  | .null => false
  | .nan => false
  | .bool b => b
  | .num n => !(n == 0)
  | .str s => !(s == "")
  | .obj => true

/-- `assert(value)` from util.js / part_000 line 1: throws `Error('Assertion
failed')` when `!value`, i.e. when the value is falsy, and returns the value
unchanged otherwise. -/
def assert (value : JsValue) : Except JsError JsValue :=
  if truthy value then .ok value else .error .assertionFailed

/-- An object as seen by `Object.hasOwnProperty.call(object, key)`: the list
of its own (non-inherited) property names. -/
structure JsObj where
  ownKeys : List String
deriving DecidableEq

/-- `Object.hasOwnProperty.call(object, key)`. -/
def hasOwnProperty (object : JsObj) (key : String) : Bool :=
  object.ownKeys.contains key

/-- Truthiness of the `foundKey` variable of `switchOnKey`: it starts as
`undefined` (falsy) and later holds a string key, which is falsy exactly
when it is the empty string. -/
def truthyKey : Option String → Bool
  | none => false
  | some s => !(s == "")

/-- The `for (const [key, h] of Object.entries(handlers))` loop of
`switchOnKey` (part_000 lines 98-104, util.js lines 55-61, identical in both
files).  State: `foundKey` (initially `undefined`) and `handler` (initially
`defaultHandler`).  On a matching key it runs `assert(!foundKey)` — the
`truthyKey` test — then records the key and its handler. -/
def switchLoop {R : Type} (object : JsObj) :
    List (String × (JsObj → R)) → Option String → Option (JsObj → R) →
    Except JsError (Option (JsObj → R))
  | [], _, handler => .ok handler
  | (key, h) :: rest, foundKey, handler =>
    if hasOwnProperty object key then
      if truthyKey foundKey then .error .assertionFailed
      else switchLoop object rest (some key) (some h)
    else switchLoop object rest foundKey handler

/-- `switchOnKey(object, handlers, defaultHandler)`: runs the entries loop,
then `return assert(handler)(object)` — an absent handler (`undefined`,
modelled by `none`) fails the final assert; a present handler is a function,
hence truthy, and is invoked on the object. -/
def switchOnKey {R : Type} (object : JsObj) (handlers : List (String × (JsObj → R)))
    (defaultHandler : Option (JsObj → R)) : Except JsError R :=
  match switchLoop object handlers none defaultHandler with
  | .error e => .error e
  | .ok none => .error .assertionFailed
  | .ok (some h) => .ok (h object)

/-- The entries loop of `switchOnKey`, restricted to the sublist of entries
whose key matches the object: each matching entry first asserts that the
previously found key is falsy, then becomes the found key/handler. -/
def processMatches {R : Type} :
    List (String × (JsObj → R)) → Option String → Option (JsObj → R) →
    Except JsError (Option (JsObj → R))
  | [], _, handler => .ok handler
  | (key, h) :: rest, foundKey, _ =>
    if truthyKey foundKey then .error .assertionFailed
    else processMatches rest (some key) (some h)

/-- The comparison made at index `i` by the `binarySearchWith` loop:
`compare(key(xs[i]), x)` (part_000 line 13). -/
def bsCond {α β : Type} [Inhabited α] (compare : β → β → Bool) (xs : List α) (x : β)
    (key : α → β) (i : Nat) : Bool :=
  compare (key (xs.getD i default)) x

/-- The `while (start < end)` loop of `binarySearchWith` (part_000 lines
11-18): take the floor midpoint `i = (start + end) / 2`; if
`compare(key(xs[i]), x)` move `start` past `i`, otherwise pull `end` down to
`i`.  The recursion is on the width of the half-open window `[start, end)`,
which shrinks strictly at every iteration. -/
def bsLoop {α β : Type} [Inhabited α] (compare : β → β → Bool) (xs : List α) (x : β)
    (key : α → β) (start e : Nat) : Nat :=
  if h : start < e then
    if bsCond compare xs x key ((start + e) / 2) then
      bsLoop compare xs x key ((start + e) / 2 + 1) e
    else
      bsLoop compare xs x key start ((start + e) / 2)
  else start
termination_by e - start
decreasing_by
  · omega
  · omega

/-- `binarySearchWith(compare)(xs, x, key)` (part_000 lines 8-20): runs the
loop on the full window `[0, xs.length)` and returns the final `start`. -/
def binarySearchWith {α β : Type} [Inhabited α] (compare : β → β → Bool) (xs : List α)
    (x : β) (key : α → β) : Nat :=
  bsLoop compare xs x key 0 xs.length

/-- `lowerBound = binarySearchWith((a, b) => a < b)` (part_000 line 21).
The key-extraction function defaults to the identity in the source; callers
here pass it explicitly. -/
def lowerBound {α β : Type} [Inhabited α] [LinearOrder β] (xs : List α) (x : β)
    (key : α → β) : Nat :=
  binarySearchWith (fun a b => decide (a < b)) xs x key

/-- `upperBound = binarySearchWith((a, b) => a <= b)` (part_000 line 22). -/
def upperBound {α β : Type} [Inhabited α] [LinearOrder β] (xs : List α) (x : β)
    (key : α → β) : Nat :=
  binarySearchWith (fun a b => decide (a ≤ b)) xs x key

/-- `mod(dividend, divisor)` (part_000 lines 72-78): starts from the
`%`-operator remainder (truncated division, `Int.tmod`) and adds the divisor
when the remainder is nonzero (truthy) and the operands have different
`Math.sign`s. -/
def mod (dividend divisor : Int) : Int :=
  let remainder := dividend.tmod divisor
  if remainder ≠ 0 ∧ dividend.sign ≠ divisor.sign then remainder + divisor
  else remainder

/-- The `for (let i = start; (end - i) * sign > 0; i += step)` loop of
part_000's `range` (line 84).  The guard compares against the precomputed
`sign`; a mismatched `step` makes the JS loop run forever, which the fuel
models: `none` means the loop was still running when the fuel ran out. -/
def rangeLoop (e step sign : Int) (i : Int) : Nat → Option (List Int)
  | 0 => if (e - i) * sign > 0 then none else some []
  | fuel + 1 =>
    if (e - i) * sign > 0 then
      (rangeLoop e step sign (i + step) fuel).map (fun l => i :: l)
    else some []

/-- part_000's `range(start, end, step = 1)` (lines 80-87), in its
two-or-more-argument form (the `assert(args.length)` arity check is
satisfied structurally).  It computes `sign = assert(Math.sign(end -
start))`, so a degenerate range (`end == start`, sign 0) fails the
assertion before the loop starts. -/
def range (start e step : Int) (fuel : Nat) : Except JsError (Option (List Int)) :=
  let sign := (e - start).sign
  if sign = 0 then .error .assertionFailed
  else .ok (rangeLoop e step sign start fuel)

/-- part_000's one-argument call `range(end)`: start 0, step 1. -/
def range1 (e : Int) (fuel : Nat) : Except JsError (Option (List Int)) :=
  range 0 e 1 fuel

namespace Util

/-- The `for (let i = start; i < end; i += step)` loop of util.js's `range`
(line 41): plain `i < end` guard, no sign.  Fuel as in `Ergometer.rangeLoop`. -/
def rangeLoop (e step : Int) (i : Int) : Nat → Option (List Int)
  | 0 => if i < e then none else some []
  | fuel + 1 =>
    if i < e then (rangeLoop e step (i + step) fuel).map (fun l => i :: l)
    else some []

/-- util.js's `range(start, end, step = 1)` (lines 38-44), two-or-more
argument form: no sign computation and no assertion beyond the arity check,
so a degenerate range simply yields nothing. -/
def range (start e step : Int) (fuel : Nat) : Option (List Int) :=
  rangeLoop e step start fuel

end Util

/- ------------------------------------------------------------------ -/
/- Helper lemmas                                                       -/
/- ------------------------------------------------------------------ -/

theorem switchLoop_eq_processMatches {R : Type} (object : JsObj)
    (entries : List (String × (JsObj → R))) (foundKey : Option String)
    (handler : Option (JsObj → R)) :
    switchLoop object entries foundKey handler =
      processMatches (entries.filter (fun e => hasOwnProperty object e.1))
        foundKey handler := by
  induction entries generalizing foundKey handler with
  | nil => rfl
  | cons e rest ih =>
    obtain ⟨key, h⟩ := e
    by_cases hk : hasOwnProperty object key
    · simp [switchLoop, List.filter_cons, hk, processMatches, ih]
    · simp [switchLoop, List.filter_cons, hk, ih]

theorem bsLoop_spec {α β : Type} [Inhabited α] (compare : β → β → Bool) (xs : List α)
    (x : β) (key : α → β)
    (hmono : ∀ j k, j ≤ k → k < xs.length → bsCond compare xs x key k = true →
      bsCond compare xs x key j = true) :
    ∀ (n start e : Nat), e - start ≤ n → start ≤ e → e ≤ xs.length →
      (∀ j, j < start → bsCond compare xs x key j = true) →
      (∀ j, e ≤ j → j < xs.length → bsCond compare xs x key j = false) →
      start ≤ bsLoop compare xs x key start e ∧
      bsLoop compare xs x key start e ≤ e ∧
      (∀ j, j < bsLoop compare xs x key start e → bsCond compare xs x key j = true) ∧
      (∀ j, bsLoop compare xs x key start e ≤ j → j < xs.length →
        bsCond compare xs x key j = false) := by
  intro n
  induction n with
  | zero =>
    intro start e hne hse hel hlo hhi
    have he : e = start := by omega
    subst he
    rw [bsLoop, dif_neg (by omega)]
    exact ⟨le_refl _, le_refl _, hlo, hhi⟩
  | succ n ih =>
    intro start e hne hse hel hlo hhi
    by_cases h : start < e
    · rw [bsLoop, dif_pos h]
      have hi1 : start ≤ (start + e) / 2 := by omega
      have hi2 : (start + e) / 2 < e := by omega
      cases hc : bsCond compare xs x key ((start + e) / 2) with
      | true =>
        rw [if_pos rfl]
        have hres := ih ((start + e) / 2 + 1) e (by omega) (by omega) hel
          (fun j hj => by
            by_cases hjs : j < start
            · exact hlo j hjs
            · exact hmono j ((start + e) / 2) (by omega) (by omega) hc)
          hhi
        exact ⟨le_trans (by omega) hres.1, hres.2.1, hres.2.2.1, hres.2.2.2⟩
      | false =>
        rw [if_neg (by simp)]
        have hres := ih start ((start + e) / 2) (by omega) hi1 (by omega) hlo
          (fun j hj hjl => by
            cases hcj : bsCond compare xs x key j with
            | true =>
              have := hmono ((start + e) / 2) j hj (by omega) hcj
              rw [hc] at this
              exact absurd this (by simp)
            | false => rfl)
        exact ⟨hres.1, le_trans hres.2.1 (by omega), hres.2.2.1, hres.2.2.2⟩
    · rw [bsLoop, dif_neg h]
      have he : e = start := by omega
      subst he
      exact ⟨le_refl _, le_refl _, hlo, hhi⟩

theorem bsLoop_le {α β : Type} [Inhabited α] (compare : β → β → Bool) (xs : List α)
    (x : β) (key : α → β) :
    ∀ (n start e : Nat), e - start ≤ n → start ≤ e →
      bsLoop compare xs x key start e ≤ e := by
  intro n
  induction n with
  | zero =>
    intro start e hne hse
    rw [bsLoop, dif_neg (by omega)]
    omega
  | succ n ih =>
    intro start e hne hse
    by_cases h : start < e
    · rw [bsLoop, dif_pos h]
      have hi1 : start ≤ (start + e) / 2 := by omega
      have hi2 : (start + e) / 2 < e := by omega
      cases hc : bsCond compare xs x key ((start + e) / 2) with
      | true =>
        rw [if_pos rfl]
        exact ih ((start + e) / 2 + 1) e (by omega) (by omega)
      | false =>
        rw [if_neg (by simp)]
        exact le_trans (ih start ((start + e) / 2) (by omega) hi1) (by omega)
    · rw [bsLoop, dif_neg h]
      omega

theorem lowerBound_spec {α β : Type} [Inhabited α] [LinearOrder β] (xs : List α) (x : β)
    (key : α → β)
    (hsort : ∀ j, j < xs.length → ∀ i, i ≤ j →
      key (xs.getD i default) ≤ key (xs.getD j default)) :
    lowerBound xs x key ≤ xs.length ∧
    (∀ j, j < lowerBound xs x key → key (xs.getD j default) < x) ∧
    (∀ j, lowerBound xs x key ≤ j → j < xs.length → x ≤ key (xs.getD j default)) := by
  have h := bsLoop_spec (fun a b => decide (a < b)) xs x key
    (fun j k hjk hk hc => by
      simp only [bsCond, decide_eq_true_eq] at hc ⊢
      exact lt_of_le_of_lt (hsort k hk j hjk) hc)
    xs.length 0 xs.length (by omega) (by omega) le_rfl
    (fun j hj => absurd hj (Nat.not_lt_zero j))
    (fun j hj hjl => absurd hjl (by omega))
  simp only [bsCond, decide_eq_true_eq, decide_eq_false_iff_not, not_lt] at h
  exact ⟨h.2.1, h.2.2.1, h.2.2.2⟩

theorem upperBound_spec {α β : Type} [Inhabited α] [LinearOrder β] (xs : List α) (x : β)
    (key : α → β)
    (hsort : ∀ j, j < xs.length → ∀ i, i ≤ j →
      key (xs.getD i default) ≤ key (xs.getD j default)) :
    upperBound xs x key ≤ xs.length ∧
    (∀ j, j < upperBound xs x key → key (xs.getD j default) ≤ x) ∧
    (∀ j, upperBound xs x key ≤ j → j < xs.length → x < key (xs.getD j default)) := by
  have h := bsLoop_spec (fun a b => decide (a ≤ b)) xs x key
    (fun j k hjk hk hc => by
      simp only [bsCond, decide_eq_true_eq] at hc ⊢
      exact le_trans (hsort k hk j hjk) hc)
    xs.length 0 xs.length (by omega) (by omega) le_rfl
    (fun j hj => absurd hj (Nat.not_lt_zero j))
    (fun j hj hjl => absurd hjl (by omega))
  simp only [bsCond, decide_eq_true_eq, decide_eq_false_iff_not, not_le] at h
  exact ⟨h.2.1, h.2.2.1, h.2.2.2⟩

theorem tmod_nonpos : ∀ (a b : Int), a ≤ 0 → a.tmod b ≤ 0
  | .ofNat 0, b, _ => by rw [show ((Int.ofNat 0) = 0) from rfl, Int.zero_tmod]
  | .ofNat (m + 1), _, ha => by
    have ha' : ((m + 1 : Nat) : Int) ≤ 0 := ha
    omega
  | .negSucc m, .ofNat n, _ => by
    show -(Int.ofNat (Nat.succ m % n)) ≤ 0
    exact neg_nonpos.mpr (Int.ofNat_nonneg _)
  | .negSucc m, .negSucc n, _ => by
    show -(Int.ofNat (Nat.succ m % Nat.succ n)) ≤ 0
    exact neg_nonpos.mpr (Int.ofNat_nonneg _)

theorem natAbs_tmod (a b : Int) : (a.tmod b).natAbs = a.natAbs % b.natAbs := by
  cases a <;> cases b <;> simp [Int.tmod, Int.natAbs_neg] <;> rfl

theorem natAbs_tmod_lt (a b : Int) (hb : b ≠ 0) : (a.tmod b).natAbs < b.natAbs := by
  rw [natAbs_tmod]
  exact Nat.mod_lt _ (by omega)

theorem dvd_sub_mod (a b : Int) : b ∣ (a - mod a b) := by
  have hd : a - a.tmod b = b * a.tdiv b := by
    have := Int.tmod_add_tdiv a b
    omega
  unfold mod
  by_cases hc : a.tmod b ≠ 0 ∧ a.sign ≠ b.sign
  · rw [if_pos hc]
    exact ⟨a.tdiv b - 1, by rw [Int.mul_sub]; omega⟩
  · rw [if_neg hc]
    exact ⟨a.tdiv b, by omega⟩

theorem mod_range_pos (a b : Int) (hb : 0 < b) : 0 ≤ mod a b ∧ mod a b < b := by
  have hbound := natAbs_tmod_lt a b (by omega)
  have hsb : b.sign = 1 := Int.sign_eq_one_iff_pos.mpr hb
  unfold mod
  by_cases hc : a.tmod b ≠ 0 ∧ a.sign ≠ b.sign
  · rw [if_pos hc]
    have ha : a ≤ 0 := by
      by_contra hpos
      exact hc.2 (by rw [Int.sign_eq_one_iff_pos.mpr (by omega), hsb])
    have h1 : a.tmod b ≤ 0 := tmod_nonpos a b ha
    omega
  · rw [if_neg hc]
    by_cases hz : a.tmod b = 0
    · omega
    · have hsa : a.sign = b.sign := by tauto
      have hpos : 0 < a := by
        rw [hsb] at hsa
        exact Int.sign_eq_one_iff_pos.mp hsa
      have h1 : 0 ≤ a.tmod b := Int.tmod_nonneg b (by omega)
      omega

theorem mod_range_neg (a b : Int) (hb : b < 0) : b < mod a b ∧ mod a b ≤ 0 := by
  have hbound := natAbs_tmod_lt a b (by omega)
  have hsb : b.sign = -1 := Int.sign_eq_neg_one_iff_neg.mpr hb
  unfold mod
  by_cases hc : a.tmod b ≠ 0 ∧ a.sign ≠ b.sign
  · rw [if_pos hc]
    have ha : 0 ≤ a := by
      by_contra hneg
      exact hc.2 (by rw [Int.sign_eq_neg_one_iff_neg.mpr (by omega), hsb])
    have h1 : 0 ≤ a.tmod b := Int.tmod_nonneg b ha
    omega
  · rw [if_neg hc]
    by_cases hz : a.tmod b = 0
    · omega
    · have hsa : a.sign = b.sign := by tauto
      have hneg : a < 0 := by
        rw [hsb] at hsa
        exact Int.sign_eq_neg_one_iff_neg.mp hsa
      have h1 : a.tmod b ≤ 0 := tmod_nonpos a b (by omega)
      omega

/- ------------------------------------------------------------------ -/
/- Claim theorems                                                      -/
/- ------------------------------------------------------------------ -/

/-- C1 counterexample: with handler mapping `{'': h1, a: h2}` and an object
owning both `''` and `'a'` as properties, two keys of the mapping match, yet
`switchOnKey` returns `h2`'s result instead of failing: `assert(!foundKey)`
cannot flag a second match whose predecessor is the falsy key `''`. -/
theorem switchOnKey_multi_match_escape :
    hasOwnProperty ⟨["", "a"]⟩ "" = true ∧
    hasOwnProperty ⟨["", "a"]⟩ "a" = true ∧
    switchOnKey ⟨["", "a"]⟩ [("", fun _ => (1 : Nat)), ("a", fun _ => (2 : Nat))] none
      = .ok 2 :=
  ⟨rfl, rfl, rfl⟩

/-- C1 (amended): `switchOnKey` iterates the mapping's entries in their
defined order, a key matching iff it is an own property of the object.  If
exactly one key matches, that key's handler is invoked on the object.  If
more than one key matches it fails with the assertion error — except when
the first matching key is the empty string (falsy, invisible to
`assert(!foundKey)`) and exactly two keys match, in which case the second
matching handler is invoked. -/
theorem switchOnKey_dispatch {R : Type} (object : JsObj)
    (handlers : List (String × (JsObj → R))) (defaultHandler : Option (JsObj → R))
    (hkeys : (handlers.map Prod.fst).Nodup) :
    (∀ k h, handlers.filter (fun e => hasOwnProperty object e.1) = [(k, h)] →
      switchOnKey object handlers defaultHandler = .ok (h object)) ∧
    (∀ k1 h1 k2 h2 rest,
      handlers.filter (fun e => hasOwnProperty object e.1) = (k1, h1) :: (k2, h2) :: rest →
      (k1 = "" ∧ rest = [] →
        switchOnKey object handlers defaultHandler = .ok (h2 object)) ∧
      (¬(k1 = "" ∧ rest = []) →
        switchOnKey object handlers defaultHandler = .error .assertionFailed)) := by
  constructor
  · intro k h hf
    unfold switchOnKey
    rw [switchLoop_eq_processMatches, hf]
    simp [processMatches, truthyKey]
  · intro k1 h1 k2 h2 rest hf
    have hnd : ((handlers.filter (fun e => hasOwnProperty object e.1)).map Prod.fst).Nodup :=
      List.Nodup.sublist (List.Sublist.map Prod.fst (List.filter_sublist _)) hkeys
    rw [hf] at hnd
    simp only [List.map_cons, List.nodup_cons, List.mem_cons, List.mem_map] at hnd
    constructor
    · rintro ⟨hk1, hrest⟩
      subst hk1; subst hrest
      unfold switchOnKey
      rw [switchLoop_eq_processMatches, hf]
      simp [processMatches, truthyKey]
    · intro hne
      unfold switchOnKey
      rw [switchLoop_eq_processMatches, hf]
      by_cases h1e : k1 = ""
      · subst h1e
        have hk2 : ¬ (k2 = "") := fun h => hnd.1 (Or.inl h.symm)
        cases rest with
        | nil => exact absurd ⟨rfl, rfl⟩ hne
        | cons m tl =>
          obtain ⟨k3, h3⟩ := m
          simp [processMatches, truthyKey, hk2]
      · simp [processMatches, truthyKey, h1e]

/-- C1 witness: a mapping `{a: h1, b: h2}` and an object owning only `a`
dispatch to `h1`. -/
theorem switchOnKey_dispatch_witness :
    switchOnKey ⟨["a"]⟩ [("a", fun _ => (1 : Nat)), ("b", fun _ => (2 : Nat))] none
      = .ok 1 :=
  (switchOnKey_dispatch ⟨["a"]⟩ [("a", fun _ => (1 : Nat)), ("b", fun _ => (2 : Nat))]
    none (by decide)).1 "a" (fun _ => (1 : Nat)) rfl

/-- C2: on a sequence sorted ascending by `key`, `lowerBound(xs, x, key)`
is an index in `[0, xs.length]`, every strictly smaller index holds an
element with `key` below `x`, and when the result is a valid index its
element's `key` is at least `x` — i.e. it is the smallest index `i` with
`key(xs[i]) >= x`, or the length when no such index exists.  In particular
`lowerBound([1,3,3,5], 3) == 1` and `lowerBound([1,3,3,5], 4) == 3`. -/
theorem lowerBound_correct {α β : Type} [Inhabited α] [LinearOrder β] (xs : List α)
    (x : β) (key : α → β)
    (hsort : ∀ j, j < xs.length → ∀ i, i ≤ j →
      key (xs.getD i default) ≤ key (xs.getD j default)) :
    lowerBound xs x key ≤ xs.length ∧
    (∀ j, j < lowerBound xs x key → key (xs.getD j default) < x) ∧
    (lowerBound xs x key < xs.length →
      x ≤ key (xs.getD (lowerBound xs x key) default)) ∧
    lowerBound ([1, 3, 3, 5] : List Int) 3 (fun a => a) = 1 ∧
    lowerBound ([1, 3, 3, 5] : List Int) 4 (fun a => a) = 3 := by
  have h := lowerBound_spec xs x key hsort
  refine ⟨h.1, h.2.1, fun hlt => h.2.2 _ (le_refl _) hlt, ?_, ?_⟩
  · rw [lowerBound, binarySearchWith]
    repeat (rw [bsLoop]; norm_num [bsCond])
  · rw [lowerBound, binarySearchWith]
    repeat (rw [bsLoop]; norm_num [bsCond])

/-- C2 witness: the spec at the concrete sorted list `[1, 3, 3, 5]`. -/
theorem lowerBound_correct_witness :
    lowerBound ([1, 3, 3, 5] : List Int) 3 (fun a => a) = 1 ∧
    lowerBound ([1, 3, 3, 5] : List Int) 4 (fun a => a) = 3 :=
  ⟨(lowerBound_correct [1, 3, 3, 5] 3 (fun a => a) (by decide)).2.2.2.1,
   (lowerBound_correct [1, 3, 3, 5] 3 (fun a => a) (by decide)).2.2.2.2⟩

/-- C3: on a sequence sorted ascending by `key`, `upperBound(xs, x, key)`
is an index in `[0, xs.length]`, every strictly smaller index holds an
element with `key` not above `x`, and when the result is a valid index its
element's `key` exceeds `x` — i.e. it is the smallest index `i` with
`key(xs[i]) > x`, or the length when no such index exists.  In particular
`upperBound([1,3,3,5], 3) == 3` and `upperBound([1,3,3,5], 4) == 3`. -/
theorem upperBound_correct {α β : Type} [Inhabited α] [LinearOrder β] (xs : List α)
    (x : β) (key : α → β)
    (hsort : ∀ j, j < xs.length → ∀ i, i ≤ j →
      key (xs.getD i default) ≤ key (xs.getD j default)) :
    upperBound xs x key ≤ xs.length ∧
    (∀ j, j < upperBound xs x key → key (xs.getD j default) ≤ x) ∧
    (upperBound xs x key < xs.length →
      x < key (xs.getD (upperBound xs x key) default)) ∧
    upperBound ([1, 3, 3, 5] : List Int) 3 (fun a => a) = 3 ∧
    upperBound ([1, 3, 3, 5] : List Int) 4 (fun a => a) = 3 := by
  have h := upperBound_spec xs x key hsort
  refine ⟨h.1, h.2.1, fun hlt => h.2.2 _ (le_refl _) hlt, ?_, ?_⟩
  · rw [upperBound, binarySearchWith]
    repeat (rw [bsLoop]; norm_num [bsCond])
  · rw [upperBound, binarySearchWith]
    repeat (rw [bsLoop]; norm_num [bsCond])

/-- C3 witness: the spec at the concrete sorted list `[1, 3, 3, 5]`. -/
theorem upperBound_correct_witness :
    upperBound ([1, 3, 3, 5] : List Int) 3 (fun a => a) = 3 ∧
    upperBound ([1, 3, 3, 5] : List Int) 4 (fun a => a) = 3 :=
  ⟨(upperBound_correct [1, 3, 3, 5] 3 (fun a => a) (by decide)).2.2.2.1,
   (upperBound_correct [1, 3, 3, 5] 3 (fun a => a) (by decide)).2.2.2.2⟩

/-- C4: when no key of the mapping is an own property of the object,
`switchOnKey` invokes the default handler when one is present, and fails
with the assertion error when the default handler is absent/falsy. -/
theorem switchOnKey_default {R : Type} (object : JsObj)
    (handlers : List (String × (JsObj → R))) (defaultHandler : Option (JsObj → R))
    (hnone : ∀ p ∈ handlers, hasOwnProperty object p.1 = false) :
    switchOnKey object handlers defaultHandler =
      (match defaultHandler with
       | some h => .ok (h object)
       | none => .error .assertionFailed) := by
  have hf : handlers.filter (fun e => hasOwnProperty object e.1) = [] := by
    rw [List.filter_eq_nil_iff]
    intro a ha
    simp [hnone a ha]
  unfold switchOnKey
  rw [switchLoop_eq_processMatches, hf]
  cases defaultHandler <;> simp [processMatches]

/-- C4 witness: no key matches and the default handler returns 7. -/
theorem switchOnKey_default_witness :
    switchOnKey ⟨[]⟩ [("a", fun _ => (1 : Nat))] (some (fun _ => (7 : Nat)))
      = .ok 7 :=
  switchOnKey_default ⟨[]⟩ [("a", fun _ => (1 : Nat))] (some (fun _ => (7 : Nat)))
    (by decide)

/-- C5 counterexample: util.js's `range` has no sign assertion, so the
degenerate call `range(5, 5)` yields the empty sequence and raises nothing
(its result type has no error case at all). -/
theorem range_degenerate_cex : Util.range 5 5 1 1 = some [] := rfl

/-- C5 (amended): on a degenerate numeric range (`end == start`), the
part_000 variant of `range` fails the `assert(Math.sign(end - start))`
assertion — before the loop, hence for any fuel — while the util.js variant
yields the empty sequence without error. -/
theorem range_degenerate (start step : Int) (fuel : Nat) :
    range start start step fuel = .error .assertionFailed ∧
    Util.range start start step fuel = some [] := by
  constructor
  · simp [range]
  · cases fuel <;> simp [Util.range, Util.rangeLoop]

/-- C6: on a sequence sorted ascending by `key`, the lower bound never
exceeds the upper bound. -/
theorem lowerBound_le_upperBound {α β : Type} [Inhabited α] [LinearOrder β]
    (xs : List α) (x : β) (key : α → β)
    (hsort : ∀ j, j < xs.length → ∀ i, i ≤ j →
      key (xs.getD i default) ≤ key (xs.getD j default)) :
    lowerBound xs x key ≤ upperBound xs x key := by
  by_contra hlt
  push_neg at hlt
  have hl := lowerBound_spec xs x key hsort
  have hu := upperBound_spec xs x key hsort
  have h1 : key (xs.getD (upperBound xs x key) default) < x :=
    hl.2.1 _ hlt
  have h2 : x < key (xs.getD (upperBound xs x key) default) :=
    hu.2.2 _ (le_refl _) (lt_of_lt_of_le hlt hl.1)
  exact absurd (lt_trans h1 h2) (lt_irrefl _)

/-- C6 witness: the invariant at the concrete sorted list `[1, 3, 3, 5]`. -/
theorem lowerBound_le_upperBound_witness :
    lowerBound ([1, 3, 3, 5] : List Int) 3 (fun a => a) ≤
      upperBound ([1, 3, 3, 5] : List Int) 3 (fun a => a) :=
  lowerBound_le_upperBound [1, 3, 3, 5] 3 (fun a => a) (by decide)

/-- C7: on a sorted sequence containing `x`, every index in
`[lowerBound(xs, x), upperBound(xs, x))` holds an element equal to `x`, and
every index of the sequence outside that range holds an element different
from `x` (search with the default identity key). -/
theorem binarySearch_bracket {α : Type} [Inhabited α] [LinearOrder α] (xs : List α)
    (x : α)
    (hsort : ∀ j, j < xs.length → ∀ i, i ≤ j → xs.getD i default ≤ xs.getD j default)
    (hmem : x ∈ xs) :
    (∀ i, lowerBound xs x (fun a => a) ≤ i → i < upperBound xs x (fun a => a) →
      xs.getD i default = x) ∧
    (∀ i, i < xs.length →
      (i < lowerBound xs x (fun a => a) ∨ upperBound xs x (fun a => a) ≤ i) →
      xs.getD i default ≠ x) := by
  have hl := lowerBound_spec xs x (fun a => a) hsort
  have hu := upperBound_spec xs x (fun a => a) hsort
  constructor
  · intro i h1 h2
    have hile : i < xs.length := lt_of_lt_of_le h2 hu.1
    exact le_antisymm (hu.2.1 i h2) (hl.2.2 i h1 hile)
  · intro i hil hcase
    cases hcase with
    | inl h => exact ne_of_lt (hl.2.1 i h)
    | inr h => exact (ne_of_lt (hu.2.2 i h hil)).symm

/-- C7 witness: the bracket property at `[1, 3, 3, 5]` with `x = 3`. -/
theorem binarySearch_bracket_witness :
    (∀ i, lowerBound ([1, 3, 3, 5] : List Int) 3 (fun a => a) ≤ i →
      i < upperBound ([1, 3, 3, 5] : List Int) 3 (fun a => a) →
      ([1, 3, 3, 5] : List Int).getD i default = 3) ∧
    (∀ i, i < ([1, 3, 3, 5] : List Int).length →
      (i < lowerBound ([1, 3, 3, 5] : List Int) 3 (fun a => a) ∨
        upperBound ([1, 3, 3, 5] : List Int) 3 (fun a => a) ≤ i) →
      ([1, 3, 3, 5] : List Int).getD i default ≠ 3) :=
  binarySearch_bracket [1, 3, 3, 5] 3 (by decide) (by decide)

/-- C8 counterexample: `assert(0)` throws the assertion error although the
value `0` is not the boolean `false` — the check is on falsiness, not on
equality with `false` (the module itself relies on this, e.g.
`assert(Math.sign(end - start))`). -/
theorem assert_zero_cex :
    assert (JsValue.num 0) = .error .assertionFailed ∧
    JsValue.num 0 ≠ JsValue.bool false :=
  ⟨rfl, by decide⟩

/-- C8 (amended): `assert` fails with the assertion error exactly when its
argument is falsy (false, 0, NaN, the empty string, null or undefined), and
otherwise returns its input unchanged. -/
theorem assert_falsy (v : JsValue) :
    (assert v = .error .assertionFailed ↔ truthy v = false) ∧
    (truthy v = true → assert v = .ok v) := by
  unfold assert
  cases hv : truthy v <;> simp

/-- C8 witness: a truthy number passes through, a falsy value throws. -/
theorem assert_falsy_witness :
    assert (JsValue.num 5) = .ok (JsValue.num 5) ∧
    assert JsValue.null = .error .assertionFailed :=
  ⟨(assert_falsy (JsValue.num 5)).2 rfl, (assert_falsy JsValue.null).1.mpr rfl⟩

/-- C9: the binary-search loop terminates: one iteration on a nonempty
window `[start, e)` recurses on a window that is strictly narrower in both
branches, and `lowerBound`/`upperBound` consequently return a value, which
is at most the sequence length. -/
theorem binarySearch_step_shrinks {α β : Type} [Inhabited α] [LinearOrder β]
    (compare : β → β → Bool) (xs : List α) (x : β) (key : α → β)
    (start e : Nat) (h : start < e) :
    (bsLoop compare xs x key start e =
      if bsCond compare xs x key ((start + e) / 2) then
        bsLoop compare xs x key ((start + e) / 2 + 1) e
      else
        bsLoop compare xs x key start ((start + e) / 2)) ∧
    e - ((start + e) / 2 + 1) < e - start ∧
    (start + e) / 2 - start < e - start ∧
    lowerBound xs x key ≤ xs.length ∧
    upperBound xs x key ≤ xs.length := by
  refine ⟨?_, by omega, by omega, ?_, ?_⟩
  · rw [bsLoop, dif_pos h]
  · exact bsLoop_le (fun a b => decide (a < b)) xs x key xs.length 0 xs.length
      (by omega) (by omega)
  · exact bsLoop_le (fun a b => decide (a ≤ b)) xs x key xs.length 0 xs.length
      (by omega) (by omega)

/-- C9 witness: one loop step on the window `[0, 4)` over `[1, 3, 3, 5]`. -/
theorem binarySearch_step_shrinks_witness :
    (bsLoop (fun a b : Int => decide (a < b)) [1, 3, 3, 5] 3 (fun a => a) 0 4 =
      if bsCond (fun a b : Int => decide (a < b)) [1, 3, 3, 5] 3 (fun a => a)
          ((0 + 4) / 2) then
        bsLoop (fun a b : Int => decide (a < b)) [1, 3, 3, 5] 3 (fun a => a)
          ((0 + 4) / 2 + 1) 4
      else
        bsLoop (fun a b : Int => decide (a < b)) [1, 3, 3, 5] 3 (fun a => a)
          0 ((0 + 4) / 2)) ∧
    4 - ((0 + 4) / 2 + 1) < 4 - 0 ∧
    (0 + 4) / 2 - 0 < 4 - 0 ∧
    lowerBound ([1, 3, 3, 5] : List Int) 3 (fun a => a) ≤ [(1 : Int), 3, 3, 5].length ∧
    upperBound ([1, 3, 3, 5] : List Int) 3 (fun a => a) ≤ [(1 : Int), 3, 3, 5].length :=
  binarySearch_step_shrinks (fun a b : Int => decide (a < b)) [1, 3, 3, 5] 3
    (fun a => a) 0 4 (by omega)

/-- C10: for a nonzero divisor, `mod` returns a representative congruent to
the dividend modulo the divisor, of magnitude strictly below the divisor's,
and either zero or of the divisor's sign — mathematical (floor) modulo,
unlike the `%`-operator remainder, as the contrast `mod(-7, 3) = 2` versus
`-7 % 3 = -1` shows. -/
theorem mod_correct (dividend divisor : Int) (h : divisor ≠ 0) :
    divisor ∣ (dividend - mod dividend divisor) ∧
    (mod dividend divisor).natAbs < divisor.natAbs ∧
    (mod dividend divisor = 0 ∨ (mod dividend divisor).sign = divisor.sign) ∧
    (mod (-7) 3 = 2 ∧ Int.tmod (-7) 3 = -1) := by
  refine ⟨dvd_sub_mod dividend divisor, ?_, ?_, by decide, by decide⟩
  · rcases lt_or_gt_of_ne h with hb | hb
    · have := mod_range_neg dividend divisor hb
      omega
    · have := mod_range_pos dividend divisor hb
      omega
  · rcases lt_or_gt_of_ne h with hb | hb
    · have hr := mod_range_neg dividend divisor hb
      by_cases hz : mod dividend divisor = 0
      · exact Or.inl hz
      · refine Or.inr ?_
        rw [Int.sign_eq_neg_one_iff_neg.mpr (by omega),
          Int.sign_eq_neg_one_iff_neg.mpr hb]
    · have hr := mod_range_pos dividend divisor hb
      by_cases hz : mod dividend divisor = 0
      · exact Or.inl hz
      · refine Or.inr ?_
        rw [Int.sign_eq_one_iff_pos.mpr (by omega),
          Int.sign_eq_one_iff_pos.mpr hb]

/-- C10 witness: the full contract at `mod(-7, 3)`. -/
theorem mod_correct_witness :
    (3 : Int) ∣ ((-7) - mod (-7) 3) ∧
    (mod (-7) 3).natAbs < (3 : Int).natAbs ∧
    (mod (-7) 3 = 0 ∨ (mod (-7) 3).sign = (3 : Int).sign) ∧
    (mod (-7) 3 = 2 ∧ Int.tmod (-7) 3 = -1) :=
  mod_correct (-7) 3 (by decide)

end Ergometer
